import Mathlib

/-!
Verification of the transcript alignment engine of the Lansingerland
gemeenteraad scraper.

The development shallowly embeds the TypeScript sources:
- src/utils/time.ts (timeToSeconds, vttTimestampToSeconds, isTimeInWindow,
  findBestSpeakerWindow);
- src/alignment/TranscriptAligner.ts (collectAllSpeakers,
  findAgendaItemForCue, alignTranscript, validateAlignment,
  fillSpeakerGaps, mergeShortSegments).

Modelling conventions:
- JavaScript numbers holding times are modelled by the rationals;
  integer-valued fields (Math.floor / Math.round results, counts) by Int/Nat.
- A JavaScript value of type string-or-null is an Option String;
  JavaScript truthiness of such a value (null and the empty string are
  falsy) is the strTruthy predicate below.
- A JavaScript NaN produced by parseInt on a digitless string is the none
  of an Option; arithmetic on such values propagates none.
- Functions that throw return an Except with a unit error.
- Array.prototype.sort is stable in JavaScript; it is modelled by a stable
  insertion sort on the comparator key.
-/

/-- A declared speaker interval, as parsed from the agenda (time.ts /
transcript.ts: SpeakerWindow). -/
structure SpeakerWindow where
  startSec : ℚ
  endSec : ℚ
  speakerName : String
deriving DecidableEq, Repr

/-- A speaker window flattened with the id of its owning agenda item
(TranscriptAligner.collectAllSpeakers produces these; TypeScript writes
SpeakerWindow and a field named agendaItemId). -/
structure FlatSpeakerWindow where
  startSec : ℚ
  endSec : ℚ
  speakerName : String
  agendaItemId : String
deriving DecidableEq, Repr

/-- An agenda item (transcript.ts: AgendaItem). -/
structure AgendaItem where
  id : String
  title : String
  order : Nat
  speakers : List SpeakerWindow
deriving DecidableEq, Repr

/-- A caption cue (transcript.ts: VTTCue). -/
structure VTTCue where
  start : ℚ
  «end» : ℚ
  text : String
deriving DecidableEq, Repr

/-- An output transcript segment (transcript.ts: TranscriptSegment). -/
structure TranscriptSegment where
  segment_id : String
  speaker_name : Option String
  transcript_text : String
  video_seconds : Int
  timestamp_start : String
  timestamp_end : String
  duration_seconds : Int
  word_count : Nat
  char_count : Nat
  segment_type : String
  agenda_item : Option String
deriving DecidableEq, Repr

/-- The record returned by TranscriptAligner.validateAlignment. -/
structure ValidationResult where
  valid : Bool
  warnings : List String
  errors : List String
deriving DecidableEq, Repr

/-- JavaScript truthiness of a string-or-null value: null and the empty
string are falsy, every other string is truthy. -/
def strTruthy : Option String → Bool
  | none => false
  | some s => !(s == "")

/-- The JavaScript expression x || null for a string x: the empty string
collapses to null, any other string is kept. -/
def jsOrNull (s : String) : Option String :=
  if s = "" then none else some s

/-- JavaScript Math.trunc on a rational (round toward zero). -/
def jsTrunc (q : ℚ) : Int :=
  if 0 ≤ q then ⌊q⌋ else ⌈q⌉

/-- The JavaScript remainder operator a % b (sign follows the dividend):
a - b * Math.trunc(a / b). -/
def jsMod (a b : ℚ) : ℚ :=
  a - b * (jsTrunc (a / b) : ℚ)

/-- JavaScript Math.round on a rational: halves round toward positive
infinity. -/
def jsRound (q : ℚ) : Int :=
  ⌊q + 1/2⌋

/-- String.prototype.padStart with a single pad character. -/
def jsPadStart (s : String) (n : Nat) (c : Char) : String :=
  if n ≤ s.length then s else String.mk (List.replicate (n - s.length) c) ++ s

/-- String.prototype.padEnd with a single pad character. -/
def jsPadEnd (s : String) (n : Nat) (c : Char) : String :=
  if n ≤ s.length then s else s ++ String.mk (List.replicate (n - s.length) c)

/-- Splitting a character list at a separator character, JavaScript
String.prototype.split semantics for a one-character separator:
the result always has one more piece than there are separators
(so the empty input yields one empty piece). -/
def splitChar (sep : Char) : List Char → List (List Char)
  | [] => [[]]
  | c :: rest =>
    let r := splitChar sep rest
    if c = sep then [] :: r
    else
      match r with
      | [] => [[c]]
      | piece :: pieces => (c :: piece) :: pieces

/-- String.prototype.split for a one-character separator string. -/
def jsSplit (s : String) (sep : Char) : List String :=
  (splitChar sep s.data).map String.mk

/-- JavaScript parseInt(s, 10) on a character list: skip leading
whitespace, read an optional sign, then the longest digit prefix; NaN
(modelled none) when no digit follows. -/
def jsParseIntChars (cs0 : List Char) : Option Int :=
  let cs := cs0.dropWhile (fun c => c.isWhitespace)
  let signAndRest : Int × List Char :=
    match cs with
    | '-' :: t => (-1, t)
    | '+' :: t => (1, t)
    | _ => (1, cs)
  let digits := signAndRest.2.takeWhile (fun c => c.isDigit)
  if digits.isEmpty then none
  else some (signAndRest.1 * (digits.foldl (fun a c => a * 10 + (c.toNat - 48)) 0 : Nat))

/-- JavaScript parseInt(s, 10) on a string. -/
def jsParseInt (s : String) : Option Int :=
  jsParseIntChars s.data

/-- time.ts timeToSeconds: split on a colon, parseInt every part; two
parts are minutes and seconds, three parts hours, minutes and seconds;
any other part count throws. A digitless part makes the JavaScript
result NaN (modelled none) rather than an exception. -/
def timeToSeconds (timeStr : String) : Except Unit (Option Int) :=
  let parts := (splitChar ':' timeStr.data).map jsParseIntChars
  match parts with
  | [m, s] =>
    Except.ok (match m, s with
      | some mv, some sv => some (mv * 60 + sv)
      | _, _ => none)
  | [h, m, s] =>
    Except.ok (match h, m, s with
      | some hv, some mv, some sv => some (hv * 3600 + mv * 60 + sv)
      | _, _, _ => none)
  | _ => Except.error ()

/-- time.ts vttTimestampToSeconds. The initial regex replace rewrites a
string matching digit:2digits:2digits.3digits into the identical text and
leaves every other string unchanged, so it is the identity on every
input and is dropped here. The remainder splits on colons and requires
exactly three parts (anything else throws), splits the last part on a
period, and right-pads the millisecond fragment to three digits; a
digitless numeric part gives NaN (modelled none). -/
def vttTimestampToSeconds (timestamp : String) : Except Unit (Option ℚ) :=
  let parts := splitChar ':' timestamp.data
  match parts with
  | [p0, p1, p2] =>
    let hours := jsParseIntChars p0
    let minutes := jsParseIntChars p1
    let secParts := splitChar '.' p2
    let secondsPart := secParts.headD []
    let milliseconds : Option (List Char) := secParts.get? 1
    let seconds := jsParseIntChars secondsPart
    let ms : Option Int :=
      match milliseconds with
      | some m =>
        if m.isEmpty then some 0
        else jsParseIntChars (if 3 ≤ m.length then m else m ++ List.replicate (3 - m.length) '0')
      | none => some 0
    match hours, minutes, seconds, ms with
    | some h, some m2, some s, some msv =>
      Except.ok (some ((h : ℚ) * 3600 + (m2 : ℚ) * 60 + (s : ℚ) + (msv : ℚ) / 1000))
    | _, _, _, _ => Except.ok none
  | _ => Except.error ()

/-- time.ts isTimeInWindow: membership in a window padded by the grace on
both sides, inclusive below and exclusive above. -/
def isTimeInWindow (time start «end» grace : ℚ) : Bool :=
  decide (time ≥ start - grace) && decide (time < «end» + grace)

/-- The reduce step of findBestSpeakerWindow: keep the running best unless
the current window's start is strictly closer to the cue time. -/
def chooseClosest (time : ℚ) (best : FlatSpeakerWindow) (l : List FlatSpeakerWindow) :
    FlatSpeakerWindow :=
  l.foldl (fun b c => if |time - c.startSec| < |time - b.startSec| then c else b) best

/-- time.ts findBestSpeakerWindow: filter the windows containing the time
(grace included); none matching gives null, exactly one gives it, several
give the reduce over the matching list. -/
def findBestSpeakerWindow (time : ℚ) (windows : List FlatSpeakerWindow) (grace : ℚ) :
    Option FlatSpeakerWindow :=
  let matching := windows.filter (fun w => isTimeInWindow time w.startSec w.endSec grace)
  match matching with
  | [] => none
  | [w] => some w
  | w :: rest => some (chooseClosest time w rest)

/-- Stable insertion of a window into a list sorted by startSec: the new
window goes after every window whose start is less than or equal. -/
def insertByStart (w : FlatSpeakerWindow) : List FlatSpeakerWindow → List FlatSpeakerWindow
  | [] => [w]
  | x :: xs => if x.startSec ≤ w.startSec then x :: insertByStart w xs else w :: x :: xs

/-- Stable sort by startSec, the result of the JavaScript stable
Array.prototype.sort with comparator a.startSec - b.startSec. -/
def sortByStart (l : List FlatSpeakerWindow) : List FlatSpeakerWindow :=
  l.foldl (fun acc w => insertByStart w acc) []

/-- TranscriptAligner.collectAllSpeakers: flatten every agenda item's
speakers, tagging each with the owning item's id, then sort by start
time. -/
def collectAllSpeakers (agendaItems : List AgendaItem) : List FlatSpeakerWindow :=
  sortByStart (agendaItems.foldr
    (fun item acc =>
      (item.speakers.map (fun sp =>
        { startSec := sp.startSec, endSec := sp.endSec,
          speakerName := sp.speakerName, agendaItemId := item.id })) ++ acc)
    [])

/-- TranscriptAligner.isCueInAgendaItemTimeRange: an item with no speakers
never matches; otherwise the cue start must fall in some speaker window
of the item, padded by the grace. -/
def isCueInAgendaItemTimeRange (grace : ℚ) (cue : VTTCue) (agendaItem : AgendaItem) : Bool :=
  if agendaItem.speakers.length = 0 then false
  else agendaItem.speakers.any (fun sp =>
    decide (cue.start ≥ sp.startSec - grace) && decide (cue.start < sp.endSec + grace))

/-- TranscriptAligner.findAgendaItemForCue. A matched speaker with a
truthy (non-empty) agendaItemId that names an existing item wins;
otherwise the first item whose time range contains the cue; otherwise
the first item when any exists, else null. -/
def findAgendaItemForCue (grace : ℚ) (cue : VTTCue) (agendaItems : List AgendaItem)
    (matchedSpeaker : Option FlatSpeakerWindow) : Option AgendaItem :=
  let byId : Option AgendaItem :=
    match matchedSpeaker with
    | some m =>
      if m.agendaItemId = "" then none
      else agendaItems.find? (fun item => item.id == m.agendaItemId)
    | none => none
  match byId with
  | some item => some item
  | none =>
    match agendaItems.find? (fun item => isCueInAgendaItemTimeRange grace cue item) with
    | some item => some item
    | none => agendaItems.head?

/-- TranscriptAligner.secondsToHHMMSS: hours, minutes and seconds via
Math.floor and the JavaScript remainder, each zero-padded to two
digits. -/
def secondsToHHMMSS (seconds : ℚ) : String :=
  let hours : Int := ⌊seconds / 3600⌋
  let minutes : Int := ⌊(jsMod seconds 3600) / 60⌋
  let secs : Int := ⌊jsMod seconds 60⌋
  jsPadStart (toString hours) 2 '0' ++ ":" ++
    jsPadStart (toString minutes) 2 '0' ++ ":" ++
    jsPadStart (toString secs) 2 '0'

/-- TranscriptAligner.countWords: split on whitespace runs and count the
non-empty pieces. -/
def countWords (text : String) : Nat :=
  ((text.data.splitOnP (fun c => c.isWhitespace)).filter (fun w => !w.isEmpty)).length

/-- The segment alignTranscript emits for one cue (the body of its loop):
best speaker window, agenda item, and the populated TranscriptSegment.
speaker_name and agenda_item use the JavaScript or-null idiom. -/
def alignSegment (grace : ℚ) (allSpeakers : List FlatSpeakerWindow)
    (agendaItems : List AgendaItem) (segmentId : Nat) (cue : VTTCue) : TranscriptSegment :=
  let matchedSpeaker := findBestSpeakerWindow cue.start allSpeakers grace
  let agendaItem := findAgendaItemForCue grace cue agendaItems matchedSpeaker
  { segment_id := jsPadStart (toString segmentId) 3 '0'
    speaker_name :=
      match matchedSpeaker with
      | some w => jsOrNull w.speakerName
      | none => none
    transcript_text := cue.text
    video_seconds := ⌊cue.start⌋
    timestamp_start := secondsToHHMMSS cue.start
    timestamp_end := secondsToHHMMSS cue.«end»
    duration_seconds := jsRound (cue.«end» - cue.start)
    word_count := countWords cue.text
    char_count := cue.text.length
    segment_type := "spoken"
    agenda_item :=
      match agendaItem with
      | some item => jsOrNull item.title
      | none => none }

/-- The loop of alignTranscript: one segment per cue, the segment id
counter increasing from its initial value 1. -/
def alignAux (grace : ℚ) (allSpeakers : List FlatSpeakerWindow)
    (agendaItems : List AgendaItem) : Nat → List VTTCue → List TranscriptSegment
  | _, [] => []
  | segmentId, cue :: rest =>
    alignSegment grace allSpeakers agendaItems segmentId cue ::
      alignAux grace allSpeakers agendaItems (segmentId + 1) rest

/-- TranscriptAligner.alignTranscript. -/
def alignTranscript (grace : ℚ) (cues : List VTTCue) (agendaItems : List AgendaItem) :
    List TranscriptSegment :=
  alignAux grace (collectAllSpeakers agendaItems) agendaItems 1 cues

/-- The error messages of validateAlignment's timing loop: one message per
adjacent pair whose video_seconds decreases. -/
def timingErrors : List TranscriptSegment → List String
  | current :: next :: rest =>
    (if next.video_seconds < current.video_seconds then
      ["Timing inconsistency at segment " ++ current.segment_id ++ ": " ++
        toString current.video_seconds ++ " > " ++ toString next.video_seconds]
    else []) ++ timingErrors (next :: rest)
  | _ => []

/-- TranscriptAligner.validateAlignment: an empty sequence is invalid with
a fixed error; otherwise low attribution rates add warnings and every
adjacent video_seconds decrease adds an error, and the result is valid
exactly when the error list is empty. -/
def validateAlignment (segments : List TranscriptSegment) : ValidationResult :=
  if segments.length = 0 then
    { valid := false, warnings := [], errors := ["No segments generated"] }
  else
    let unalignedSpeakers := (segments.filter (fun s => s.speaker_name == none)).length
    let speakerRate : ℚ :=
      ((segments.length : ℚ) - (unalignedSpeakers : ℚ)) / (segments.length : ℚ)
    let unalignedAgenda := (segments.filter (fun s => s.agenda_item == none)).length
    let agendaRate : ℚ :=
      ((segments.length : ℚ) - (unalignedAgenda : ℚ)) / (segments.length : ℚ)
    let warnings :=
      (if speakerRate < 1/2 then
        ["Low speaker alignment rate: " ++ toString (jsRound (speakerRate * 100)) ++ "%"]
      else []) ++
      (if agendaRate < 3/10 then
        ["Low agenda item alignment rate: " ++ toString (jsRound (agendaRate * 100)) ++ "%"]
      else [])
    let errors := timingErrors segments
    { valid := errors.length = 0, warnings := warnings, errors := errors }

/-- The body of fillSpeakerGaps' sweep. The previous speaker is read from
the array already updated (entries behind the index may have been filled);
the next speaker is read from the not yet visited part, hence from the
original entries. -/
def fillAux (prev : Option String) : List TranscriptSegment → List TranscriptSegment
  | [] => []
  | s :: rest =>
    let nextSpeaker : Option String :=
      match rest with
      | [] => none
      | n :: _ => n.speaker_name
    let s' :=
      if !(strTruthy s.speaker_name) && strTruthy prev && (prev == nextSpeaker) then
        { s with speaker_name := prev }
      else s
    s' :: fillAux s'.speaker_name rest

/-- TranscriptAligner.fillSpeakerGaps: a single left-to-right sweep that
assigns a speaker to a falsy-speaker segment exactly when its immediate
neighbors carry the same truthy speaker. -/
def fillSpeakerGaps (segments : List TranscriptSegment) : List TranscriptSegment :=
  fillAux none segments

/-- The merge condition of mergeShortSegments: same speaker, same agenda
item, accumulator duration under the threshold, and a gap under five
seconds between the accumulator's end and the next segment's start. -/
def shouldMerge (minDurationSeconds : Int) (current next : TranscriptSegment) : Bool :=
  (current.speaker_name == next.speaker_name) &&
  (current.agenda_item == next.agenda_item) &&
  decide (current.duration_seconds < minDurationSeconds) &&
  decide (next.video_seconds - (current.video_seconds + current.duration_seconds) < 5)

/-- The merge action of mergeShortSegments: concatenate the texts with one
space, take the next segment's end timestamp, recompute the duration from
the next segment's end back to the accumulator's start, and sum the word
and character counts. -/
def mergeInto (current next : TranscriptSegment) : TranscriptSegment :=
  { current with
    transcript_text := current.transcript_text ++ " " ++ next.transcript_text
    timestamp_end := next.timestamp_end
    duration_seconds := next.video_seconds + next.duration_seconds - current.video_seconds
    word_count := current.word_count + next.word_count
    char_count := current.char_count + next.char_count }

/-- The accumulator loop of mergeShortSegments. -/
def mergeAux (minDurationSeconds : Int) (current : TranscriptSegment) :
    List TranscriptSegment → List TranscriptSegment
  | [] => [current]
  | next :: rest =>
    if shouldMerge minDurationSeconds current next then
      mergeAux minDurationSeconds (mergeInto current next) rest
    else
      current :: mergeAux minDurationSeconds next rest

/-- TranscriptAligner.mergeShortSegments (default threshold two
seconds). -/
def mergeShortSegments (segments : List TranscriptSegment)
    (minDurationSeconds : Int := 2) : List TranscriptSegment :=
  match segments with
  | [] => []
  | s :: rest => mergeAux minDurationSeconds s rest

/-- TranscriptAligner.postProcessSegments: gap fill then short-segment
merge. -/
def postProcessSegments (segments : List TranscriptSegment) : List TranscriptSegment :=
  mergeShortSegments (fillSpeakerGaps segments)

/-! ### Facts about the short-segment merge pass -/

theorem mergeInto_speaker_name (c n : TranscriptSegment) :
    (mergeInto c n).speaker_name = c.speaker_name := rfl

theorem mergeInto_agenda_item (c n : TranscriptSegment) :
    (mergeInto c n).agenda_item = c.agenda_item := rfl

theorem mergeInto_video_seconds (c n : TranscriptSegment) :
    (mergeInto c n).video_seconds = c.video_seconds := rfl

theorem shouldMerge_iff (m : Int) (c n : TranscriptSegment) :
    shouldMerge m c n = true ↔
      (c.speaker_name = n.speaker_name ∧ c.agenda_item = n.agenda_item ∧
        c.duration_seconds < m ∧
        n.video_seconds - (c.video_seconds + c.duration_seconds) < 5) := by
  simp [shouldMerge, and_assoc]

theorem shouldMerge_congr (m : Int) (a b b' : TranscriptSegment)
    (h1 : b'.speaker_name = b.speaker_name) (h2 : b'.agenda_item = b.agenda_item)
    (h3 : b'.video_seconds = b.video_seconds) :
    shouldMerge m a b' = shouldMerge m a b := by
  simp [shouldMerge, h1, h2, h3]

theorem mergeAux_head_fields (m : Int) :
    ∀ (rest : List TranscriptSegment) (c : TranscriptSegment),
      ∃ r tl, mergeAux m c rest = r :: tl ∧ r.speaker_name = c.speaker_name ∧
        r.agenda_item = c.agenda_item ∧ r.video_seconds = c.video_seconds := by
  intro rest
  induction rest with
  | nil => exact fun c => ⟨c, [], rfl, rfl, rfl, rfl⟩
  | cons next tail ih =>
    intro c
    by_cases h : shouldMerge m c next = true
    · obtain ⟨r, tl, heq, h1, h2, h3⟩ := ih (mergeInto c next)
      exact ⟨r, tl, by simp [mergeAux, h, heq], h1, h2, h3⟩
    · exact ⟨c, mergeAux m next tail, by simp [mergeAux, h], rfl, rfl, rfl⟩

theorem mergeAux_chain (m : Int) :
    ∀ (rest : List TranscriptSegment) (c : TranscriptSegment),
      List.Chain' (fun a b => shouldMerge m a b = false) (mergeAux m c rest) := by
  intro rest
  induction rest with
  | nil => intro c; simp [mergeAux]
  | cons next tail ih =>
    intro c
    by_cases h : shouldMerge m c next = true
    · simpa [mergeAux, h] using ih (mergeInto c next)
    · obtain ⟨r, tl, heq, h1, h2, h3⟩ := mergeAux_head_fields m tail next
      rw [mergeAux, if_neg (by simp [h]), heq]
      refine List.chain'_cons.mpr ⟨?_, heq ▸ ih next⟩
      rw [shouldMerge_congr m c next r h1 h2 h3]
      simpa using h

theorem mergeAux_of_chain (m : Int) :
    ∀ (rest : List TranscriptSegment) (c : TranscriptSegment),
      List.Chain' (fun a b => shouldMerge m a b = false) (c :: rest) →
      mergeAux m c rest = c :: rest := by
  intro rest
  induction rest with
  | nil => intro c _; rfl
  | cons n t ih =>
    intro c hch
    rw [List.chain'_cons] at hch
    rw [mergeAux, if_neg (by simp [hch.1]), ih n hch.2]

/-- C5: the short-segment merge pass is idempotent: applying
mergeShortSegments twice (at its default threshold) gives the same
segment sequence as applying it once. -/
theorem mergeShortSegments_idempotent (s : List TranscriptSegment) :
    mergeShortSegments (mergeShortSegments s) = mergeShortSegments s := by
  cases s with
  | nil => rfl
  | cons a rest =>
    show mergeShortSegments (mergeAux 2 a rest) = mergeAux 2 a rest
    obtain ⟨r, tl, heq, -, -, -⟩ := mergeAux_head_fields 2 rest a
    rw [heq]
    show mergeAux 2 r tl = r :: tl
    exact mergeAux_of_chain 2 tl r (heq ▸ mergeAux_chain 2 rest a)

/-- C4: one step of the merge pass: the next segment is folded into the
accumulator exactly when speaker, agenda item (null included on both),
a duration under two seconds and a gap under five seconds all hold, and
the merged accumulator is the described field-by-field combination. -/
theorem mergeShortSegments_step (current next : TranscriptSegment)
    (rest : List TranscriptSegment) :
    mergeShortSegments (current :: next :: rest) =
      if current.speaker_name = next.speaker_name ∧
          current.agenda_item = next.agenda_item ∧
          current.duration_seconds < 2 ∧
          next.video_seconds - (current.video_seconds + current.duration_seconds) < 5 then
        mergeShortSegments ({ current with
          transcript_text := current.transcript_text ++ " " ++ next.transcript_text
          timestamp_end := next.timestamp_end
          duration_seconds := next.video_seconds + next.duration_seconds - current.video_seconds
          word_count := current.word_count + next.word_count
          char_count := current.char_count + next.char_count } :: rest)
      else current :: mergeShortSegments (next :: rest) := by
  by_cases h : current.speaker_name = next.speaker_name ∧
      current.agenda_item = next.agenda_item ∧
      current.duration_seconds < 2 ∧
      next.video_seconds - (current.video_seconds + current.duration_seconds) < 5
  · rw [if_pos h]
    show mergeAux 2 current (next :: rest) = _
    rw [mergeAux, if_pos ((shouldMerge_iff 2 current next).mpr h)]
    rfl
  · rw [if_neg h]
    show mergeAux 2 current (next :: rest) = _
    rw [mergeAux, if_neg (fun hh => h ((shouldMerge_iff 2 current next).mp hh))]
    rfl

/-- Witness for C4 at a concrete pair of mergeable one-second segments. -/
theorem mergeShortSegments_step_witness :
    mergeShortSegments
      [⟨"001", some "A", "a", 0, "00:00:00", "00:00:01", 1, 1, 1, "spoken", some "X"⟩,
       ⟨"002", some "A", "b", 1, "00:00:01", "00:00:02", 1, 1, 1, "spoken", some "X"⟩] =
      [⟨"001", some "A", "a b", 0, "00:00:00", "00:00:02", 2, 2, 2, "spoken", some "X"⟩] := by
  have h := mergeShortSegments_step
    ⟨"001", some "A", "a", 0, "00:00:00", "00:00:01", 1, 1, 1, "spoken", some "X"⟩
    ⟨"002", some "A", "b", 1, "00:00:01", "00:00:02", 1, 1, 1, "spoken", some "X"⟩ []
  rw [if_pos (by decide)] at h
  exact h.trans (by decide)

theorem mergeAux_sum_word (m : Int) :
    ∀ (rest : List TranscriptSegment) (c : TranscriptSegment),
      ((mergeAux m c rest).map TranscriptSegment.word_count).sum =
        c.word_count + ((rest.map TranscriptSegment.word_count).sum) := by
  intro rest
  induction rest with
  | nil => intro c; simp [mergeAux]
  | cons next tail ih =>
    intro c
    by_cases h : shouldMerge m c next = true
    · rw [mergeAux, if_pos h, ih (mergeInto c next)]
      show c.word_count + next.word_count + _ = _
      simp [Nat.add_assoc]
    · rw [mergeAux, if_neg (by simp [h])]
      simp [ih next]

theorem mergeAux_sum_char (m : Int) :
    ∀ (rest : List TranscriptSegment) (c : TranscriptSegment),
      ((mergeAux m c rest).map TranscriptSegment.char_count).sum =
        c.char_count + ((rest.map TranscriptSegment.char_count).sum) := by
  intro rest
  induction rest with
  | nil => intro c; simp [mergeAux]
  | cons next tail ih =>
    intro c
    by_cases h : shouldMerge m c next = true
    · rw [mergeAux, if_pos h, ih (mergeInto c next)]
      show c.char_count + next.char_count + _ = _
      simp [Nat.add_assoc]
    · rw [mergeAux, if_neg (by simp [h])]
      simp [ih next]

theorem mergeAux_length_le (m : Int) :
    ∀ (rest : List TranscriptSegment) (c : TranscriptSegment),
      (mergeAux m c rest).length ≤ rest.length + 1 := by
  intro rest
  induction rest with
  | nil => intro c; simp [mergeAux]
  | cons next tail ih =>
    intro c
    by_cases h : shouldMerge m c next = true
    · rw [mergeAux, if_pos h]
      exact le_trans (ih (mergeInto c next)) (by simp)
    · rw [mergeAux, if_neg (by simp [h])]
      simpa using ih next

/-- C10: the merge pass conserves the word and character totals, returns
at least one segment for non-empty input, and never lengthens the
sequence. -/
theorem mergeShortSegments_conserves (s : List TranscriptSegment) :
    ((mergeShortSegments s).map TranscriptSegment.word_count).sum =
      (s.map TranscriptSegment.word_count).sum ∧
    ((mergeShortSegments s).map TranscriptSegment.char_count).sum =
      (s.map TranscriptSegment.char_count).sum ∧
    (s ≠ [] → 1 ≤ (mergeShortSegments s).length) ∧
    (mergeShortSegments s).length ≤ s.length := by
  cases s with
  | nil => simp [mergeShortSegments]
  | cons a rest =>
    refine ⟨?_, ?_, ?_, ?_⟩
    · show ((mergeAux 2 a rest).map _).sum = _
      rw [mergeAux_sum_word]
      simp
    · show ((mergeAux 2 a rest).map _).sum = _
      rw [mergeAux_sum_char]
      simp
    · intro _
      obtain ⟨r, tl, heq, -, -, -⟩ := mergeAux_head_fields 2 rest a
      show 1 ≤ (mergeAux 2 a rest).length
      rw [heq]
      simp
    · show (mergeAux 2 a rest).length ≤ _
      exact le_trans (mergeAux_length_le 2 rest a) (by simp)

/-- Witness for C10 at a concrete two-segment input (which merges to
one segment). -/
theorem mergeShortSegments_conserves_witness :
    ([(⟨"001", some "A", "a", 0, "00:00:00", "00:00:01", 1, 1, 1, "spoken", some "X"⟩ :
        TranscriptSegment),
      ⟨"002", some "A", "b", 1, "00:00:01", "00:00:02", 1, 3, 4, "spoken", some "X"⟩] ≠
      ([] : List TranscriptSegment)) ∧
    ((mergeShortSegments
      [⟨"001", some "A", "a", 0, "00:00:00", "00:00:01", 1, 1, 1, "spoken", some "X"⟩,
       ⟨"002", some "A", "b", 1, "00:00:01", "00:00:02", 1, 3, 4, "spoken", some "X"⟩]).map
        TranscriptSegment.word_count).sum = 4 := by
  refine ⟨by decide, ?_⟩
  have h := mergeShortSegments_conserves
    [⟨"001", some "A", "a", 0, "00:00:00", "00:00:01", 1, 1, 1, "spoken", some "X"⟩,
     ⟨"002", some "A", "b", 1, "00:00:01", "00:00:02", 1, 3, 4, "spoken", some "X"⟩]
  rw [h.1]
  decide

/-! ### Facts about the gap-fill pass -/

/-- C3 counterexample: two adjacent speaker-null segments flanked by the
speaker A on both sides; the gap-fill pass fills neither of them (their
speakers stay null instead of becoming A as the claim states). -/
theorem fillSpeakerGaps_double_gap_counterexample :
    (fillSpeakerGaps
      [⟨"001", some "A", "a", 0, "00:00:00", "00:00:01", 1, 1, 1, "spoken", none⟩,
       ⟨"002", none, "b", 1, "00:00:01", "00:00:02", 1, 1, 1, "spoken", none⟩,
       ⟨"003", none, "c", 2, "00:00:02", "00:00:03", 1, 1, 1, "spoken", none⟩,
       ⟨"004", some "A", "d", 3, "00:00:03", "00:00:04", 1, 1, 1, "spoken", none⟩]).map
      TranscriptSegment.speaker_name = [some "A", none, none, some "A"] ∧
    (fillSpeakerGaps
      [⟨"001", some "A", "a", 0, "00:00:00", "00:00:01", 1, 1, 1, "spoken", none⟩,
       ⟨"002", none, "b", 1, "00:00:01", "00:00:02", 1, 1, 1, "spoken", none⟩,
       ⟨"003", none, "c", 2, "00:00:02", "00:00:03", 1, 1, 1, "spoken", none⟩,
       ⟨"004", some "A", "d", 3, "00:00:03", "00:00:04", 1, 1, 1, "spoken", none⟩]).map
      TranscriptSegment.speaker_name ≠ [some "A", some "A", some "A", some "A"] := by
  constructor
  · decide
  · decide

/-- C3 amended: a pair of adjacent speaker-null segments flanked by the
same speaker on both sides is left entirely unchanged by the gap-fill
pass: the sweep sees the other null segment as one of the two neighbors,
so neither middle segment is filled. -/
theorem fillSpeakerGaps_double_gap_unchanged (s0 s1 s2 s3 : TranscriptSegment) (a : String)
    (h0 : s0.speaker_name = some a) (h3 : s3.speaker_name = some a)
    (h1 : s1.speaker_name = none) (h2 : s2.speaker_name = none) :
    fillSpeakerGaps [s0, s1, s2, s3] = [s0, s1, s2, s3] := by
  simp [fillSpeakerGaps, fillAux, strTruthy, h0, h1, h2, h3]

/-- Witness for the amended C3 at concrete segments. -/
theorem fillSpeakerGaps_double_gap_unchanged_witness :
    fillSpeakerGaps
      [⟨"001", some "A", "a", 0, "00:00:00", "00:00:01", 1, 1, 1, "spoken", none⟩,
       ⟨"002", none, "b", 1, "00:00:01", "00:00:02", 1, 1, 1, "spoken", none⟩,
       ⟨"003", none, "c", 2, "00:00:02", "00:00:03", 1, 1, 1, "spoken", none⟩,
       ⟨"004", some "A", "d", 3, "00:00:03", "00:00:04", 1, 1, 1, "spoken", none⟩] =
      [⟨"001", some "A", "a", 0, "00:00:00", "00:00:01", 1, 1, 1, "spoken", none⟩,
       ⟨"002", none, "b", 1, "00:00:01", "00:00:02", 1, 1, 1, "spoken", none⟩,
       ⟨"003", none, "c", 2, "00:00:02", "00:00:03", 1, 1, 1, "spoken", none⟩,
       ⟨"004", some "A", "d", 3, "00:00:03", "00:00:04", 1, 1, 1, "spoken", none⟩] :=
  fillSpeakerGaps_double_gap_unchanged _ _ _ _ "A" rfl rfl rfl rfl

/-! ### Facts about validation -/

theorem timingErrors_eq_nil :
    ∀ l : List TranscriptSegment,
      timingErrors l = [] ↔
        List.Chain' (fun a b => ¬(b.video_seconds < a.video_seconds)) l
  | [] => by simp [timingErrors]
  | [a] => by simp [timingErrors]
  | a :: b :: t => by
    rw [timingErrors]
    have ih := timingErrors_eq_nil (b :: t)
    by_cases h : b.video_seconds < a.video_seconds
    · simp [h]
    · simp [h, ih, List.chain'_cons]
      exact fun _ => not_lt.mp h

/-- C9: validateAlignment is valid exactly on a non-empty sequence with
no adjacent decrease of video_seconds; the empty sequence gives an
invalid result whose only error is the fixed message. (The embedded
function is pure; the TypeScript original only reads its argument.) -/
theorem validateAlignment_valid_iff :
    validateAlignment [] =
      { valid := false, warnings := [], errors := ["No segments generated"] } ∧
    ∀ s : List TranscriptSegment,
      ((validateAlignment s).valid = true ↔
        (s ≠ [] ∧ List.Chain' (fun a b => ¬(b.video_seconds < a.video_seconds)) s)) := by
  refine ⟨rfl, ?_⟩
  intro s
  cases s with
  | nil => simp [validateAlignment]
  | cons a rest =>
    rw [validateAlignment, if_neg (by simp)]
    simp [List.length_eq_zero, timingErrors_eq_nil]

/-- Witness for C9 at a concrete one-segment sequence. -/
theorem validateAlignment_valid_iff_witness :
    (validateAlignment
      [⟨"001", some "A", "a", 0, "00:00:00", "00:00:01", 1, 1, 1, "spoken", none⟩]).valid =
      true := by
  refine (validateAlignment_valid_iff.2 _).mpr ⟨by decide, ?_⟩
  simp

/-! ### Facts about the alignment loop -/

theorem alignSegment_video (g : ℚ) (sp : List FlatSpeakerWindow) (items : List AgendaItem)
    (id : Nat) (cue : VTTCue) :
    (alignSegment g sp items id cue).video_seconds = ⌊cue.start⌋ := rfl

theorem alignAux_map_video (g : ℚ) (sp : List FlatSpeakerWindow) (items : List AgendaItem) :
    ∀ (cues : List VTTCue) (id : Nat),
      (alignAux g sp items id cues).map TranscriptSegment.video_seconds =
        cues.map (fun c => ⌊c.start⌋) := by
  intro cues
  induction cues with
  | nil => intro id; rfl
  | cons c rest ih =>
    intro id
    simp [alignAux, alignSegment_video, ih]

/-- C2: alignTranscript emits exactly one segment per cue, in input
order, and the i-th segment's video_seconds is the floor of the i-th
cue's start. -/
theorem alignTranscript_order_preserving (g : ℚ) (cues : List VTTCue)
    (items : List AgendaItem) :
    (alignTranscript g cues items).length = cues.length ∧
    (alignTranscript g cues items).map TranscriptSegment.video_seconds =
      cues.map (fun c => ⌊c.start⌋) := by
  have h := alignAux_map_video g (collectAllSpeakers items) items cues 1
  refine ⟨?_, h⟩
  have := congrArg List.length h
  simpa using this

/-- Witness for C2 at a concrete one-cue input. -/
theorem alignTranscript_order_preserving_witness :
    (alignTranscript 0 [⟨2, 3, "x"⟩] []).map TranscriptSegment.video_seconds = [2] := by
  rw [(alignTranscript_order_preserving 0 [⟨2, 3, "x"⟩] []).2]
  norm_num

theorem alignAux_get (g : ℚ) (sp : List FlatSpeakerWindow) (items : List AgendaItem) :
    ∀ (cues : List VTTCue) (id i : Nat) (h : i < cues.length)
      (h2 : i < (alignAux g sp items id cues).length),
      (alignAux g sp items id cues).get ⟨i, h2⟩ =
        alignSegment g sp items (id + i) (cues.get ⟨i, h⟩) := by
  intro cues
  induction cues with
  | nil => intro id i h; simp at h
  | cons c rest ih =>
    intro id i h h2
    cases i with
    | zero => rfl
    | succ j =>
      have hj : j < rest.length := by simpa using h
      have hj2 : j < (alignAux g sp items (id + 1) rest).length := by
        simpa [alignAux] using h2
      show (alignAux g sp items (id + 1) rest).get ⟨j, hj2⟩ = _
      rw [ih (id + 1) j hj hj2]
      congr 1
      omega

/-- C7 counterexample: a speaker window with the empty string as its
speaker name matches the cue, yet the emitted segment's speaker_name is
null, not the matched window's name: the source uses the or-operator,
not nullish coalescing. -/
theorem alignTranscript_empty_speaker_counterexample :
    findBestSpeakerWindow 10 (collectAllSpeakers [⟨"i1", "T", 1, [⟨5, 20, ""⟩]⟩]) 0 =
      some ⟨5, 20, "", "i1"⟩ ∧
    (alignTranscript 0 [⟨10, 12, "hi"⟩] [⟨"i1", "T", 1, [⟨5, 20, ""⟩]⟩]).map
      TranscriptSegment.speaker_name = [none] := by
  constructor
  · simp [collectAllSpeakers, sortByStart, insertByStart, findBestSpeakerWindow,
      isTimeInWindow, List.filter]
    norm_num
  · simp [alignTranscript, alignAux, alignSegment, collectAllSpeakers, sortByStart,
      insertByStart, findBestSpeakerWindow, isTimeInWindow, List.filter, jsOrNull]
    norm_num

/-- C7 amended: each emitted segment's speaker_name is the matched
window's speakerName when that name is non-empty and null when no window
matched or the matched name is the empty string; likewise agenda_item
with the resolved item's title (JavaScript or-semantics, not nullish
coalescing). -/
theorem alignTranscript_attribution (g : ℚ) (cues : List VTTCue) (items : List AgendaItem)
    (i : Nat) (h : i < cues.length) (h2 : i < (alignTranscript g cues items).length) :
    (((alignTranscript g cues items).get ⟨i, h2⟩).speaker_name =
      match findBestSpeakerWindow (cues.get ⟨i, h⟩).start (collectAllSpeakers items) g with
      | some w => if w.speakerName = "" then none else some w.speakerName
      | none => none) ∧
    (((alignTranscript g cues items).get ⟨i, h2⟩).agenda_item =
      match findAgendaItemForCue g (cues.get ⟨i, h⟩) items
          (findBestSpeakerWindow (cues.get ⟨i, h⟩).start (collectAllSpeakers items) g) with
      | some item => if item.title = "" then none else some item.title
      | none => none) := by
  have hg := alignAux_get g (collectAllSpeakers items) items cues 1 i h h2
  constructor
  · show ((alignAux g (collectAllSpeakers items) items 1 cues).get ⟨i, h2⟩).speaker_name = _
    rw [hg]
    generalize cues.get ⟨i, h⟩ = c
    rcases hm : findBestSpeakerWindow c.start (collectAllSpeakers items) g with _ | w
    · simp [alignSegment, hm]
    · simp [alignSegment, hm, jsOrNull]
  · show ((alignAux g (collectAllSpeakers items) items 1 cues).get ⟨i, h2⟩).agenda_item = _
    rw [hg]
    generalize cues.get ⟨i, h⟩ = c
    rcases ha : findAgendaItemForCue g c items
        (findBestSpeakerWindow c.start (collectAllSpeakers items) g) with _ | item
    · simp [alignSegment, ha]
    · simp [alignSegment, ha, jsOrNull]

/-- Witness for the amended C7: a matched window with a non-empty name
is carried into the segment verbatim. -/
theorem alignTranscript_attribution_witness :
    ((alignTranscript 0 [⟨10, 12, "hi"⟩] [⟨"i1", "T", 1, [⟨5, 20, "Jules Bijl"⟩]⟩]).get
      ⟨0, by simp [alignTranscript, alignAux]⟩).speaker_name = some "Jules Bijl" := by
  have h := (alignTranscript_attribution 0 [⟨10, 12, "hi"⟩]
    [⟨"i1", "T", 1, [⟨5, 20, "Jules Bijl"⟩]⟩] 0 (by simp)
    (by simp [alignTranscript, alignAux])).1
  rw [h]
  have hfb : findBestSpeakerWindow 10
      (collectAllSpeakers [⟨"i1", "T", 1, [⟨5, 20, "Jules Bijl"⟩]⟩]) 0 =
      some ⟨5, 20, "Jules Bijl", "i1"⟩ := by
    simp [collectAllSpeakers, sortByStart, insertByStart, findBestSpeakerWindow,
      isTimeInWindow, List.filter]
    norm_num
  simp [hfb]

/-! ### Facts about the time parsers -/

/-- C8: the time parsers at the claim's boundary inputs. The MM:SS and
HH:MM:SS colon forms parse; the three-part caption form parses; the
two-part caption form MM:SS.mmm, which the source's own comment says is
handled, throws instead; and the malformed literal 10:20abc returns the
number 620 rather than failing, because parseInt accepts a digit
prefix. -/
theorem timeParsing_behavior :
    timeToSeconds "12:34" = Except.ok (some 754) ∧
    timeToSeconds "1:02:03" = Except.ok (some 3723) ∧
    vttTimestampToSeconds "0:01:23.850" = Except.ok (some (1677/20)) ∧
    vttTimestampToSeconds "01:23.850" = Except.error () ∧
    timeToSeconds "10:20abc" = Except.ok (some 620) := by
  refine ⟨rfl, rfl, ?_, rfl, rfl⟩
  rw [show vttTimestampToSeconds "0:01:23.850" =
    Except.ok (some ((((0 : Int)) : ℚ) * 3600 + (((1 : Int)) : ℚ) * 60 + (((23 : Int)) : ℚ) +
      (((850 : Int)) : ℚ) / 1000)) from rfl]
  norm_num

/-! ### Facts about agenda-item resolution -/

theorem find?_first {α : Type} (p : α → Bool) :
    ∀ (pre : List α) (a : α) (post : List α),
      p a = true → (∀ j ∈ pre, p j = false) →
      (pre ++ a :: post).find? p = some a := by
  intro pre
  induction pre with
  | nil => intro a post ha _; simp [List.find?_cons, ha]
  | cons j pre2 ih =>
    intro a post ha hpre
    have hj : p j = false := hpre j (by simp)
    simp only [List.cons_append, List.find?_cons, hj]
    exact ih a post ha (fun x hx => hpre x (by simp [hx]))

theorem isCueInAgendaItemTimeRange_iff (g : ℚ) (cue : VTTCue) (item : AgendaItem) :
    isCueInAgendaItemTimeRange g cue item = true ↔
      ∃ w ∈ item.speakers, w.startSec - g ≤ cue.start ∧ cue.start < w.endSec + g := by
  rw [isCueInAgendaItemTimeRange]
  by_cases h : item.speakers.length = 0
  · rw [List.length_eq_zero] at h
    simp [h]
  · simp [h, List.any_eq_true, ge_iff_le]

/-- C6: for a cue with no best-matching speaker window, findAgendaItemForCue
returns null exactly when the agenda is empty; it returns the first item,
in declaration order, having any speaker window containing the cue start
under the grace padding; and when no item qualifies it falls back to the
first item of the input. -/
theorem findAgendaItemForCue_no_match (g : ℚ) (cue : VTTCue) (items : List AgendaItem) :
    (findAgendaItemForCue g cue items none = none ↔ items = []) ∧
    (∀ pre item post, items = pre ++ item :: post →
      (∃ w ∈ item.speakers, w.startSec - g ≤ cue.start ∧ cue.start < w.endSec + g) →
      (∀ j ∈ pre, ¬∃ w ∈ j.speakers, w.startSec - g ≤ cue.start ∧ cue.start < w.endSec + g) →
      findAgendaItemForCue g cue items none = some item) ∧
    ((∀ j ∈ items, ¬∃ w ∈ j.speakers, w.startSec - g ≤ cue.start ∧ cue.start < w.endSec + g) →
      findAgendaItemForCue g cue items none = items.head?) := by
  refine ⟨?_, ?_, ?_⟩
  · rw [findAgendaItemForCue]
    rcases hfind : items.find? (fun item => isCueInAgendaItemTimeRange g cue item)
      with _ | item
    · simp only [hfind]
      cases items with
      | nil => simp
      | cons a rest => simp
    · have := List.mem_of_find?_eq_some hfind
      constructor
      · intro hc; simp [hfind] at hc
      · intro hc; rw [hc] at this; simp at this
  · intro pre item post hdec hit hpre
    rw [findAgendaItemForCue]
    have hfind : items.find? (fun it => isCueInAgendaItemTimeRange g cue it) = some item := by
      rw [hdec]
      refine find?_first _ pre item post ?_ ?_
      · exact (isCueInAgendaItemTimeRange_iff g cue item).mpr hit
      · intro j hj
        have := hpre j hj
        rcases hb : isCueInAgendaItemTimeRange g cue j with _ | _
        · rfl
        · exact absurd ((isCueInAgendaItemTimeRange_iff g cue j).mp hb) this
    simp [hfind]
  · intro hall
    rw [findAgendaItemForCue]
    have hfind : items.find? (fun it => isCueInAgendaItemTimeRange g cue it) = none := by
      rw [List.find?_eq_none]
      intro j hj
      rcases hb : isCueInAgendaItemTimeRange g cue j with _ | _
      · simp
      · exact absurd ((isCueInAgendaItemTimeRange_iff g cue j).mp hb) (hall j hj)
    simp [hfind]

/-- Witness for C6: the first item has no speaker windows, the second
contains the cue time, so the second is chosen. -/
theorem findAgendaItemForCue_no_match_witness :
    findAgendaItemForCue 0 ⟨10, 12, "x"⟩
      [⟨"i1", "T1", 1, []⟩, ⟨"i2", "T2", 2, [⟨5, 20, "S"⟩]⟩] none =
      some ⟨"i2", "T2", 2, [⟨5, 20, "S"⟩]⟩ := by
  refine (findAgendaItemForCue_no_match 0 ⟨10, 12, "x"⟩
    [⟨"i1", "T1", 1, []⟩, ⟨"i2", "T2", 2, [⟨5, 20, "S"⟩]⟩]).2.1
    [⟨"i1", "T1", 1, []⟩] ⟨"i2", "T2", 2, [⟨5, 20, "S"⟩]⟩ [] rfl ?_ ?_
  · refine ⟨⟨5, 20, "S"⟩, by simp, ?_, ?_⟩
    · norm_num
    · norm_num
  · intro j hj
    simp at hj
    subst hj
    simp

/-! ### Facts about best-window selection -/

theorem chooseClosest_cons (t : ℚ) (best c : FlatSpeakerWindow) (tl : List FlatSpeakerWindow) :
    chooseClosest t best (c :: tl) =
      chooseClosest t (if |t - c.startSec| < |t - best.startSec| then c else best) tl := rfl

theorem chooseClosest_spec (t : ℚ) :
    ∀ (l : List FlatSpeakerWindow) (best : FlatSpeakerWindow),
      ∃ pre post, best :: l = pre ++ (chooseClosest t best l) :: post ∧
        (∀ v ∈ best :: l, |t - (chooseClosest t best l).startSec| ≤ |t - v.startSec|) ∧
        (∀ v ∈ pre, |t - (chooseClosest t best l).startSec| < |t - v.startSec|) := by
  intro l
  induction l with
  | nil => intro best; exact ⟨[], [], rfl, by simp [chooseClosest], by simp⟩
  | cons c tl ih =>
    intro best
    by_cases h : |t - c.startSec| < |t - best.startSec|
    · have hstep : chooseClosest t best (c :: tl) = chooseClosest t c tl := by
        rw [chooseClosest_cons, if_pos h]
      obtain ⟨pre, post, hdec, hmin, hstrict⟩ := ih c
      rw [hstep]
      have hrc : |t - (chooseClosest t c tl).startSec| ≤ |t - c.startSec| :=
        hmin c (by simp)
      refine ⟨best :: pre, post, ?_, ?_, ?_⟩
      · rw [List.cons_append, ← hdec]
      · intro v hv
        rcases List.mem_cons.mp hv with hv | hv
        · rw [hv]
          exact le_of_lt (lt_of_le_of_lt hrc h)
        · exact hmin v hv
      · intro v hv
        rcases List.mem_cons.mp hv with hv | hv
        · rw [hv]
          exact lt_of_le_of_lt hrc h
        · exact hstrict v hv
    · have hstep : chooseClosest t best (c :: tl) = chooseClosest t best tl := by
        rw [chooseClosest_cons, if_neg h]
      have hbc : |t - best.startSec| ≤ |t - c.startSec| := not_lt.mp h
      obtain ⟨pre, post, hdec, hmin, hstrict⟩ := ih best
      rw [hstep]
      cases pre with
      | nil =>
        have hr : chooseClosest t best tl = best := (List.cons.injEq _ _ _ _ |>.mp hdec.symm).1
        have hpost : post = tl := (List.cons.injEq _ _ _ _ |>.mp hdec.symm).2
        refine ⟨[], c :: tl, by rw [hr]; rfl, ?_, by simp⟩
        intro v hv
        rcases List.mem_cons.mp hv with hv | hv
        · rw [hv, hr]
        · rcases List.mem_cons.mp hv with hv2 | hv2
          · rw [hv2, hr]
            exact hbc
          · exact hmin v (by simp [hv2])
      | cons p0 pre2 =>
        have hp0 : p0 = best := by
          have := congrArg (fun x => x.headD best) hdec
          simpa using this.symm
        have htl : tl = pre2 ++ (chooseClosest t best tl) :: post := by
          have := congrArg List.tail hdec
          simpa using this
        have hrb : |t - (chooseClosest t best tl).startSec| < |t - best.startSec| := by
          have := hstrict p0 (by simp)
          rwa [hp0] at this
        refine ⟨best :: c :: pre2, post, ?_, ?_, ?_⟩
        · rw [List.cons_append, List.cons_append, ← htl]
        · intro v hv
          rcases List.mem_cons.mp hv with hv | hv
          · rw [hv]
            exact le_of_lt hrb
          · rcases List.mem_cons.mp hv with hv2 | hv2
            · rw [hv2]
              exact le_of_lt (lt_of_lt_of_le hrb hbc)
            · exact hmin v (by simp [hv2])
        · intro v hv
          rcases List.mem_cons.mp hv with hv | hv
          · rw [hv]
            exact hrb
          · rcases List.mem_cons.mp hv with hv2 | hv2
            · rw [hv2]
              exact lt_of_lt_of_le hrb hbc
            · exact hstrict v (by simp [hp0, hv2])

theorem isTimeInWindow_iff (t s e g : ℚ) :
    isTimeInWindow t s e g = true ↔ (s - g ≤ t ∧ t < e + g) := by
  simp [isTimeInWindow, ge_iff_le]

theorem findBestSpeakerWindow_eq_choose (t g : ℚ) (windows : List FlatSpeakerWindow)
    (w0 : FlatSpeakerWindow) (rest : List FlatSpeakerWindow)
    (hf : windows.filter (fun v => isTimeInWindow t v.startSec v.endSec g) = w0 :: rest) :
    findBestSpeakerWindow t windows g = some (chooseClosest t w0 rest) := by
  rw [findBestSpeakerWindow]
  simp only [hf]
  cases rest with
  | nil => rfl
  | cons a b => rfl

/-- C1: findBestSpeakerWindow returns null exactly when no window
contains the time under the grace padding; any returned window is a
satisfying window whose start is at minimal absolute distance from the
time, and it is the first window of the candidate list attaining that
minimum (so ties go to the first-encountered candidate). -/
theorem findBestSpeakerWindow_characterization (t : ℚ) (windows : List FlatSpeakerWindow)
    (g : ℚ) :
    (findBestSpeakerWindow t windows g = none ↔
      ∀ w ∈ windows, ¬(w.startSec - g ≤ t ∧ t < w.endSec + g)) ∧
    (∀ w, findBestSpeakerWindow t windows g = some w →
      (w ∈ windows ∧ (w.startSec - g ≤ t ∧ t < w.endSec + g)) ∧
      (∀ v ∈ windows, (v.startSec - g ≤ t ∧ t < v.endSec + g) →
        |t - w.startSec| ≤ |t - v.startSec|) ∧
      (∃ pre post,
        windows.filter (fun v => isTimeInWindow t v.startSec v.endSec g) = pre ++ w :: post ∧
        ∀ v ∈ pre, |t - w.startSec| < |t - v.startSec|)) := by
  constructor
  · rcases hf : windows.filter (fun v => isTimeInWindow t v.startSec v.endSec g)
      with _ | ⟨w0, rest⟩
    · rw [List.filter_eq_nil_iff] at hf
      constructor
      · intro _ w hw
        have := hf w hw
        rw [isTimeInWindow_iff] at this
        simpa using this
      · intro _
        rw [findBestSpeakerWindow]
        simp only [List.filter_eq_nil_iff.mpr hf]
    · rw [findBestSpeakerWindow_eq_choose t g windows w0 rest hf]
      constructor
      · intro hc; exact absurd hc (by simp)
      · intro hall
        have hw0 : w0 ∈ windows.filter (fun v => isTimeInWindow t v.startSec v.endSec g) := by
          rw [hf]; simp
        rw [List.mem_filter] at hw0
        have := (isTimeInWindow_iff t w0.startSec w0.endSec g).mp hw0.2
        exact absurd this (hall w0 hw0.1)
  · intro w hw
    rcases hf : windows.filter (fun v => isTimeInWindow t v.startSec v.endSec g)
      with _ | ⟨w0, rest⟩
    · rw [findBestSpeakerWindow] at hw
      simp only [hf] at hw
      exact absurd hw (by simp)
    · rw [findBestSpeakerWindow_eq_choose t g windows w0 rest hf] at hw
      have hweq : chooseClosest t w0 rest = w := by injection hw
      obtain ⟨pre, post, hdec, hmin, hstrict⟩ := chooseClosest_spec t rest w0
      rw [hweq] at hdec hmin hstrict
      have hwmem : w ∈ windows.filter (fun v => isTimeInWindow t v.startSec v.endSec g) := by
        rw [hf, hdec]
        exact List.mem_append_right pre (by simp)
      rw [List.mem_filter] at hwmem
      refine ⟨⟨hwmem.1, (isTimeInWindow_iff t w.startSec w.endSec g).mp hwmem.2⟩, ?_, ?_⟩
      · intro v hv hcond
        have hvf : v ∈ windows.filter (fun u => isTimeInWindow t u.startSec u.endSec g) := by
          rw [List.mem_filter]
          exact ⟨hv, (isTimeInWindow_iff t v.startSec v.endSec g).mpr hcond⟩
        rw [hf] at hvf
        exact hmin v hvf
      · exact ⟨pre, post, by rw [hf, hdec], hstrict⟩

/-- Witness for C1: two windows both contain the time with equal start
distance; the characterization yields that the selected window is a
satisfying one at minimal distance. -/
theorem findBestSpeakerWindow_characterization_witness :
    ((⟨8, 30, "A", "i"⟩ : FlatSpeakerWindow) ∈
      [(⟨8, 30, "A", "i"⟩ : FlatSpeakerWindow), ⟨12, 25, "B", "i"⟩] ∧
      ((8 : ℚ) - 0 ≤ 10 ∧ (10 : ℚ) < 30 + 0)) ∧
    (∀ v ∈ [(⟨8, 30, "A", "i"⟩ : FlatSpeakerWindow), ⟨12, 25, "B", "i"⟩],
      (v.startSec - 0 ≤ 10 ∧ (10 : ℚ) < v.endSec + 0) →
      |(10 : ℚ) - (8 : ℚ)| ≤ |(10 : ℚ) - v.startSec|) := by
  have hfb : findBestSpeakerWindow 10 [⟨8, 30, "A", "i"⟩, ⟨12, 25, "B", "i"⟩] 0 =
      some ⟨8, 30, "A", "i"⟩ := by
    simp [findBestSpeakerWindow, isTimeInWindow, List.filter, chooseClosest]
    norm_num
  have h := (findBestSpeakerWindow_characterization 10
    [⟨8, 30, "A", "i"⟩, ⟨12, 25, "B", "i"⟩] 0).2 ⟨8, 30, "A", "i"⟩ hfb
  exact ⟨h.1, h.2.1⟩
